import Mathlib

/-!
# EizenDb — verification of the vector-math, heap-ordering, storage and SDK layers

Shallow embedding of the EizenDb HNSW vector database (TypeScript sources) in
Lean 4.  JavaScript `number` values are modelled as real numbers; a `NaN`
produced by reading past the end of an array (`b[idx]` with `idx ≥ b.length`
is `undefined`, and arithmetic on `undefined` yields `NaN`) is modelled by
`Option ℝ`, with `none` standing for `NaN` and propagating through every
arithmetic step, exactly as `NaN` does.  Division can additionally produce
the JavaScript infinities and the `0 / 0` `NaN`, so `cosine_distance` — the
one function in these sources that divides — returns a `JSNum`: a finite
value, `Infinity`, `-Infinity`, or `NaN`.
-/

namespace Eizen

noncomputable section VectorMath

/-- `Point` — a vector, `number[]` in `src/types/index.ts`. -/
abbrev Point := List ℝ

/-- `Node` — a `[distance, id]` tuple from `src/types/index.ts`. -/
abbrev Node := ℝ × ℕ

/-- `LayerNode` — adjacency of one point on one layer, a map from neighbor id
to cached distance (`Record<number, number>` in `src/types/index.ts`). -/
abbrev LayerNode := ℕ → Option ℝ

/-- The empty adjacency record `{}`. -/
def emptyNode : LayerNode := fun _ => none

/-- `compareNode` from `src/utils/index.ts`:
`(a, b) => a[0] - b[0]` — compares two nodes by their distance component. -/
def compareNode (a b : Node) : ℝ := a.1 - b.1

/-- Accumulator pass of `dot_product`'s
`a.reduce((sum, val, idx) => sum + val * b[idx], 0)`: the fold walks `a`
left-to-right while `b` is consumed positionally; once `a` outlives `b`, the
JavaScript sum becomes `NaN` (`none`) and stays so. -/
def dotFold : Option ℝ → Point → Point → Option ℝ
  | acc, [], _ => acc
  | _, _ :: a, [] => dotFold none a []
  | acc, v :: a, w :: b => dotFold (acc.map (fun sum => sum + v * w)) a b

/-- `dot_product` from `src/utils/index.ts`:
`a.reduce((sum, val, idx) => sum + val * b[idx], 0)`. -/
def dot_product (a b : Point) : Option ℝ := dotFold (some 0) a b

/-- `norm` from `src/utils/index.ts`:
`Math.sqrt(a.reduce((sum, val) => sum + val * val, 0))`. -/
def norm (a : Point) : ℝ := Real.sqrt (a.foldl (fun sum val => sum + val * val) 0)

/-- A JavaScript `number` as produced by a division: a finite value, one of
the two infinities, or `NaN`. -/
inductive JSNum where
  /-- an ordinary finite value -/
  | val (x : ℝ)
  /-- `Infinity` -/
  | posInf
  /-- `-Infinity` -/
  | negInf
  /-- `NaN` -/
  | nan

/-- JavaScript division `x / y` on finite operands: ordinary division for a
nonzero denominator; at `y = 0` it yields `NaN` for `0 / 0` and a signed
infinity otherwise.  (The sign of a floating-point `-0` denominator is not
modelled; no claim depends on it.) -/
def jsDiv (x y : ℝ) : JSNum :=
  if y ≠ 0 then .val (x / y)
  else if x = 0 then .nan
  else if 0 < x then .posInf
  else .negInf

/-- JavaScript `1 - t` extended to infinities and `NaN`. -/
def jsOneSub : JSNum → JSNum
  | .val x => .val (1 - x)
  | .posInf => .negInf
  | .negInf => .posInf
  | .nan => .nan

/-- `cosine_distance` from `src/utils/index.ts`:
`1 - dot_product(a, b) / (norm(a) * norm(b))`.  A `NaN` dot product gives a
`NaN` distance, and the division follows the JavaScript rules above, so a
zero denominator (a zero-norm operand) produces a non-finite result. -/
def cosine_distance (a b : Point) : JSNum :=
  match dot_product a b with
  | none => .nan
  | some d => jsOneSub (jsDiv d (norm a * norm b))

/-- `inner_product` from `src/utils/index.ts` — alias for `dot_product`. -/
def inner_product (a b : Point) : Option ℝ := dot_product a b

/-- Accumulator pass of `l2_distance`'s
`a.reduce((sum, val, idx) => sum + (val - b[idx]) ** 2, 0)`; out-of-range
`b[idx]` poisons the sum with `NaN` (`none`). -/
def l2Fold : Option ℝ → Point → Point → Option ℝ
  | acc, [], _ => acc
  | _, _ :: a, [] => l2Fold none a []
  | acc, v :: a, w :: b => l2Fold (acc.map (fun sum => sum + (v - w) ^ 2)) a b

/-- `l2_distance` from `src/utils/index.ts`:
`Math.sqrt(a.reduce((sum, val, idx) => sum + (val - b[idx]) ** 2, 0))`. -/
def l2_distance (a b : Point) : Option ℝ :=
  (l2Fold (some 0) a b).map Real.sqrt

/-- The spec's dot product: the sum of element-wise products. -/
def specDot (a b : Point) : ℝ := (List.zipWith (fun x y => x * y) a b).sum

/-- The spec's Euclidean norm: the square root of the sum of squared
components. -/
def specNorm (a : Point) : ℝ := Real.sqrt ((a.map (fun x => x ^ 2)).sum)

end VectorMath

/-!
## Storage model — `RedisMemory` from `test/eizen.test.ts`

The Redis key space (`ep`, `points`, `layers`, `point:{idx}`,
`neighbor:{layer}:{idx}`, `metadata:{idx}`) is modelled as typed fields of a
state record; a key that was never written holds `none`.  Numeric values are
stored through `toString` and read back with `Number.parseInt`, which is the
identity round-trip modelled here.
-/

/-- The Redis key-value state visible to `RedisMemory`. -/
@[ext]
structure RedisState where
  /-- key `ep` -/
  ep : Option ℕ
  /-- key `layers` (the `num_layers` counter) -/
  layersKey : Option ℕ
  /-- key `points` (the `datasize` counter) -/
  pointsKey : Option ℕ
  /-- keys `point:{idx}`, holding `encodePoint({ v, idx })` -/
  pointRec : ℕ → Option (Point × ℕ)
  /-- keys `neighbor:{layer}:{idx}`, holding `encodeLayerNode` records -/
  neighborRec : ℕ → ℕ → Option LayerNode
  /-- keys `metadata:{idx}`, holding JSON blobs -/
  metadataRec : ℕ → Option String

namespace RedisMemory

/-- `get_num_layers`: `numLayers ? Number.parseInt(numLayers) : 0`. -/
def get_num_layers (s : RedisState) : ℕ := s.layersKey.getD 0

/-- `get_datasize`: `datasize ? Number.parseInt(datasize) : 0`. -/
def get_datasize (s : RedisState) : ℕ := s.pointsKey.getD 0

/-- `new_point(q)`: reads the datasize, stores `encodePoint({v: q, idx})`
under `point:{idx}`, writes `idx + 1` to the `points` counter and returns
`idx`. -/
def new_point (q : Point) (s : RedisState) : ℕ × RedisState :=
  let idx := get_datasize s
  (idx,
    { s with
      pointRec := fun i => if i = idx then some (q, idx) else s.pointRec i
      pointsKey := some (idx + 1) })

/-- `get_point(idx)`: decodes the stored record and returns its `v` field
(`none` models the thrown `No point with index` error). -/
def get_point (s : RedisState) (idx : ℕ) : Option Point :=
  (s.pointRec idx).map Prod.fst

/-- `upsert_neighbor(layer, idx, node)`: one `client.set` of the encoded
layer node under `neighbor:{layer}:{idx}`. -/
def upsert_neighbor (layer idx : ℕ) (node : LayerNode) (s : RedisState) : RedisState :=
  { s with
    neighborRec := fun l i =>
      if l = layer ∧ i = idx then some node else s.neighborRec l i }

/-- The `client.mset` pass of `upsert_neighbors`: every `(idx, node)` entry of
the graph is written under its `neighbor:{layer}:{idx}` key. -/
def msetNeighbors (layer : ℕ) (nodes : List (ℕ × LayerNode)) (s : RedisState) : RedisState :=
  nodes.foldl (fun st p => upsert_neighbor layer p.1 p.2 st) s

/-- `upsert_neighbors(layer, nodes)`: first the batched `mset` of all
entries, then `Promise.all` of an individual `upsert_neighbor` per entry
(each re-writing the very same key with the very same encoded value). -/
def upsert_neighbors (layer : ℕ) (nodes : List (ℕ × LayerNode)) (s : RedisState) : RedisState :=
  let s1 := msetNeighbors layer nodes s
  nodes.foldl (fun st p => upsert_neighbor layer p.1 p.2 st) s1

/-- `new_neighbor(idx)`: reads the current `num_layers` value `l`, writes an
empty adjacency `{}` for `idx` at layer `l`, then sets the `layers` counter
to `l + 1`. -/
def new_neighbor (idx : ℕ) (s : RedisState) : RedisState :=
  let l := get_num_layers s
  let s1 := upsert_neighbor l idx emptyNode s
  { s1 with layersKey := some (l + 1) }

/-- The last value written for key `i` by a sequence of `(idx, node)` writes
(later entries override earlier ones); `none` when no entry touches `i`.
Used to characterise `msetNeighbors` pointwise. -/
def lastWrite : List (ℕ × LayerNode) → ℕ → Option LayerNode
  | [], _ => none
  | p :: nodes, i =>
    match lastWrite nodes i with
    | some v => some v
    | none => if i = p.1 then some p.2 else none

end RedisMemory

/-!
## Index construction — `EizenDbVector` (`src/index.ts`) over the `HNSW` base
class, and the `EizenCompatSDK` legacy adapter
-/

/-- Error kinds surfaced at construction. -/
inductive HNSWError where
  /-- invalid configuration parameters -/
  | InvalidConfig
deriving DecidableEq

/-- The configuration held by a successfully constructed `HNSW` instance. -/
structure HNSWConfig where
  /-- target neighbor count `M` -/
  m : ℤ
  /-- candidate-list width during insert -/
  ef_construction : ℤ
  /-- candidate-list width during query -/
  ef_search : ℤ
deriving DecidableEq

/-- Modelled from the spec: the `HNSW` base-class constructor (file
`src/hnsw.ts`, absent from the sources; only its subclass `EizenDbVector` is
present) validates its parameters — "`InvalidConfig` — `M ≤ 1`, non-positive
`ef_*`, non-finite RNG output; detected at construction". -/
def HNSW.construct (m ef_construction ef_search : ℤ) : Except HNSWError HNSWConfig :=
  if m ≤ 1 ∨ ef_construction ≤ 0 ∨ ef_search ≤ 0 then .error .InvalidConfig
  else .ok ⟨m, ef_construction, ef_search⟩

/-- The optional `options` argument of the `EizenDbVector` constructor. -/
structure EizenOptions where
  /-- `options.m` -/
  m : Option ℤ
  /-- `options.efConstruction` -/
  efConstruction : Option ℤ
  /-- `options.efSearch` -/
  efSearch : Option ℤ

/-- The `EizenDbVector` constructor from `src/index.ts`: applies the defaults
`m = 5`, `ef_construction = 128`, `ef_search = 20` via `??` and delegates to
the `HNSW` constructor. -/
def EizenDbVector.construct (options : Option EizenOptions) : Except HNSWError HNSWConfig :=
  let m := (options.bind (fun o => o.m)).getD 5
  let ef_construction := (options.bind (fun o => o.efConstruction)).getD 128
  let ef_search := (options.bind (fun o => o.efSearch)).getD 20
  HNSW.construct m ef_construction ef_search

/-- Errors thrown by `EizenCompatSDK` itself. -/
inductive SDKError where
  /-- "Keys and values arrays must have the same length" -/
  | lengthMismatch
deriving DecidableEq

/-- The payload of the `upsertVectorMulti` dry-write interaction issued by
`EizenCompatSDK.setMany` (the contract interaction itself is an external
collaborator assumed to succeed). -/
structure UpsertVectorMulti where
  /-- the `keys` field -/
  keys : List String
  /-- the `values` field -/
  values : List String
deriving DecidableEq

namespace EizenCompatSDK

/-- `EizenCompatSDK.setMany` from `src/index.ts`: throws when the two arrays
have different lengths, otherwise issues `upsertVectorMulti` with
`{keys, values}`. -/
def setMany (keys values : List String) : Except SDKError UpsertVectorMulti :=
  if keys.length ≠ values.length then .error .lengthMismatch
  else .ok ⟨keys, values⟩

/-- `EizenCompatSDK.set` from `src/index.ts`: `this.setMany([key], [value])`. -/
def set (key value : String) : Except SDKError UpsertVectorMulti :=
  setMany [key] [value]

end EizenCompatSDK

end Eizen

namespace Eizen

theorem dotFold_none : ∀ (a b : Point), dotFold none a b = none
  | [], _ => rfl
  | _ :: a, [] => dotFold_none a []
  | _ :: a, _ :: b => dotFold_none a b

theorem dotFold_some_of_le :
    ∀ (a b : Point) (c : ℝ), a.length ≤ b.length →
      dotFold (some c) a b = some (c + specDot a b)
  | [], _, c, _ => by simp [dotFold, specDot]
  | _ :: _, [], _, h => by simp at h
  | v :: a, w :: b, c, h => by
    have h' : a.length ≤ b.length := by simpa using h
    rw [show dotFold (some c) (v :: a) (w :: b)
        = dotFold (some (c + v * w)) a b from rfl,
      dotFold_some_of_le a b (c + v * w) h']
    simp [specDot, add_assoc]

theorem dotFold_none_of_lt :
    ∀ (a b : Point) (c : ℝ), b.length < a.length → dotFold (some c) a b = none
  | [], _, _, h => by simp at h
  | _ :: a, [], _, _ => dotFold_none a []
  | v :: a, w :: b, c, h => by
    have h' : b.length < a.length := by simpa using h
    exact dotFold_none_of_lt a b _ h'

/-- On equal-length inputs the code's `dot_product` returns exactly the spec's
sum of element-wise products. -/
theorem dot_product_eq_specDot (a b : Point) (h : a.length ≤ b.length) :
    dot_product a b = some (specDot a b) := by
  rw [dot_product, dotFold_some_of_le a b 0 h, zero_add]

theorem foldl_add_mul_self :
    ∀ (a : List ℝ) (c : ℝ),
      a.foldl (fun sum val => sum + val * val) c = c + (a.map (fun x => x ^ 2)).sum
  | [], c => by simp
  | v :: a, c => by
    rw [List.foldl_cons, foldl_add_mul_self a (c + v * v)]
    simp [sq]
    ring

/-- The code's `norm` equals the spec's Euclidean norm. -/
theorem norm_eq_specNorm (a : Point) : norm a = specNorm a := by
  rw [norm, specNorm, foldl_add_mul_self a 0, zero_add]

theorem l2Fold_none : ∀ (a b : Point), l2Fold none a b = none
  | [], _ => rfl
  | _ :: a, [] => l2Fold_none a []
  | _ :: a, _ :: b => l2Fold_none a b

theorem l2Fold_some_of_le :
    ∀ (a b : Point) (c : ℝ), a.length ≤ b.length →
      l2Fold (some c) a b = some (c + (List.zipWith (fun x y => (x - y) ^ 2) a b).sum)
  | [], _, c, _ => by simp [l2Fold]
  | _ :: _, [], _, h => by simp at h
  | v :: a, w :: b, c, h => by
    have h' : a.length ≤ b.length := by simpa using h
    rw [show l2Fold (some c) (v :: a) (w :: b)
        = l2Fold (some (c + (v - w) ^ 2)) a b from rfl,
      l2Fold_some_of_le a b (c + (v - w) ^ 2) h']
    simp [add_assoc]

theorem l2Fold_none_of_lt :
    ∀ (a b : Point) (c : ℝ), b.length < a.length → l2Fold (some c) a b = none
  | [], _, _, h => by simp at h
  | _ :: a, [], _, _ => l2Fold_none a []
  | v :: a, w :: b, c, h => by
    have h' : b.length < a.length := by simpa using h
    exact l2Fold_none_of_lt a b _ h'

theorem list_map_sum_range (f : ℝ → ℝ) :
    ∀ l : List ℝ, (l.map f).sum = ∑ i ∈ Finset.range l.length, f (l.getD i 0)
  | [] => by simp
  | x :: l => by
    rw [List.map_cons, List.sum_cons, list_map_sum_range f l, List.length_cons,
      Finset.sum_range_succ']
    simp [add_comm]

theorem specDot_range :
    ∀ (a b : Point), a.length = b.length →
      specDot a b = ∑ i ∈ Finset.range a.length, a.getD i 0 * b.getD i 0
  | [], _, _ => by simp [specDot]
  | _ :: _, [], h => by simp at h
  | v :: a, w :: b, h => by
    have h' : a.length = b.length := by simpa using h
    rw [specDot, List.zipWith_cons_cons, List.sum_cons,
      show (List.zipWith (fun x y => x * y) a b).sum = specDot a b from rfl,
      specDot_range a b h', List.length_cons, Finset.sum_range_succ']
    simp [add_comm]

/-- Cauchy–Schwarz for the spec-level dot product and norm. -/
theorem abs_specDot_le (a b : Point) (h : a.length = b.length) :
    |specDot a b| ≤ specNorm a * specNorm b := by
  rw [specDot_range a b h, specNorm, specNorm,
    list_map_sum_range (fun x => x ^ 2) a, list_map_sum_range (fun x => x ^ 2) b, ← h]
  rw [abs_le]
  constructor
  · have hcs := Real.sum_mul_le_sqrt_mul_sqrt (Finset.range a.length)
      (fun i => -(a.getD i 0)) (fun i => b.getD i 0)
    simp only [neg_mul, Finset.sum_neg_distrib, neg_sq] at hcs
    linarith
  · exact Real.sum_mul_le_sqrt_mul_sqrt _ _ _

theorem specDot_comm :
    ∀ (a b : Point), a.length = b.length → specDot a b = specDot b a
  | [], [], _ => rfl
  | [], _ :: _, h => by simp at h
  | _ :: _, [], h => by simp at h
  | v :: a, w :: b, h => by
    have h' : a.length = b.length := by simpa using h
    simp only [specDot, List.zipWith_cons_cons, List.sum_cons]
    rw [show (List.zipWith (fun x y => x * y) a b).sum = specDot a b from rfl,
      show (List.zipWith (fun x y => x * y) b a).sum = specDot b a from rfl,
      specDot_comm a b h', mul_comm]

theorem jsDiv_of_ne (x y : ℝ) (h : y ≠ 0) : jsDiv x y = .val (x / y) := if_pos h

theorem cosine_distance_eq (a b : Point) (h : a.length ≤ b.length) :
    cosine_distance a b = jsOneSub (jsDiv (specDot a b) (norm a * norm b)) := by
  rw [cosine_distance, dot_product_eq_specDot a b h]

theorem cosine_distance_nan_of_lt (a b : Point) (h : b.length < a.length) :
    cosine_distance a b = .nan := by
  rw [cosine_distance, dot_product, dotFold_none_of_lt a b 0 h]

theorem map_sq_sum_zero :
    ∀ x : List ℝ, (x.map (fun v => v ^ 2)).sum ≤ 0 → ∀ v ∈ x, v = 0
  | [], _, v, hv => by simp at hv
  | w :: x, h, v, hv => by
    rw [List.map_cons, List.sum_cons] at h
    have hx : 0 ≤ (x.map (fun v => v ^ 2)).sum :=
      List.sum_nonneg (fun u hu => by
        obtain ⟨u', _, hu'⟩ := List.mem_map.mp hu
        exact hu' ▸ sq_nonneg u')
    have hw : w ^ 2 = 0 := le_antisymm (by linarith) (sq_nonneg w)
    rcases List.mem_cons.mp hv with h1 | h2
    · exact h1.trans (pow_eq_zero_iff two_ne_zero |>.mp hw)
    · exact map_sq_sum_zero x (by linarith) v h2

/-- A vector with vanishing `specNorm` has all-zero entries. -/
theorem specNorm_zero_entries (x : Point) (h : specNorm x = 0) :
    ∀ v ∈ x, v = 0 := by
  rw [specNorm, Real.sqrt_eq_zero'] at h
  exact map_sq_sum_zero x h

theorem specDot_zero_left :
    ∀ (a b : Point), (∀ v ∈ a, v = 0) → specDot a b = 0
  | [], _, _ => rfl
  | _ :: _, [], _ => rfl
  | v :: a, w :: b, h => by
    rw [specDot, List.zipWith_cons_cons, List.sum_cons,
      show (List.zipWith (fun x y => x * y) a b).sum = specDot a b from rfl,
      specDot_zero_left a b (fun u hu => h u (List.mem_cons_of_mem _ hu)),
      h v (List.mem_cons_self _ _), zero_mul, add_zero]

theorem specDot_zero_right :
    ∀ (a b : Point), (∀ w ∈ b, w = 0) → specDot a b = 0
  | [], _, _ => rfl
  | _ :: _, [], _ => rfl
  | v :: a, w :: b, h => by
    rw [specDot, List.zipWith_cons_cons, List.sum_cons,
      show (List.zipWith (fun x y => x * y) a b).sum = specDot a b from rfl,
      specDot_zero_right a b (fun u hu => h u (List.mem_cons_of_mem _ hu)),
      h w (List.mem_cons_self _ _), mul_zero, add_zero]

/-- When the norm product vanishes, one operand is all-zero, so the (JS) dot
product is zero and the cosine division is the `0 / 0` path. -/
theorem specDot_zero_of_norm_zero (a b : Point) (h : norm a * norm b = 0) :
    specDot a b = 0 := by
  rw [norm_eq_specNorm, norm_eq_specNorm] at h
  rcases mul_eq_zero.mp h with h0 | h0
  · exact specDot_zero_left a b (specNorm_zero_entries a h0)
  · exact specDot_zero_right a b (specNorm_zero_entries b h0)

/-- C1: for every pair of equal-length vectors with nonzero Euclidean norms,
the code's `cosine_distance` returns exactly
`1 − dot(a,b)/(‖a‖·‖b‖)`, where the dot product is the sum of element-wise
products and the norm is the square root of the sum of squared components. -/
theorem cosine_distance_matches_spec (a b : Point) (hlen : a.length = b.length)
    (ha : norm a ≠ 0) (hb : norm b ≠ 0) :
    cosine_distance a b = .val (1 - specDot a b / (specNorm a * specNorm b)) := by
  rw [cosine_distance_eq a b hlen.le, jsDiv_of_ne _ _ (mul_ne_zero ha hb),
    norm_eq_specNorm, norm_eq_specNorm]
  rfl

/-- Witness for C1 at `a = [1, 0]`, `b = [0, 1]`. -/
theorem cosine_distance_matches_spec_witness :
    cosine_distance [1, 0] [0, 1]
      = .val (1 - specDot [1, 0] [0, 1] / (specNorm [1, 0] * specNorm [0, 1])) :=
  cosine_distance_matches_spec [1, 0] [0, 1] rfl
    (by simp [norm, Real.sqrt_one]) (by simp [norm, Real.sqrt_one])

/-- C2 (counterexample): two `(distance, id)` pairs with equal distances and
distinct ids compare as equal under `compareNode` — the comparator has no id
tiebreaker, refuting the claimed ordering "by distance with id as
tiebreaker". -/
theorem compareNode_counterexample :
    compareNode (1, 0) (1, 1) = 0 ∧ ((1, 0) : Node).2 ≠ ((1, 1) : Node).2 :=
  ⟨sub_self 1, by simp⟩

/-- C2 (amended): `compareNode` orders pairs by distance alone — negative iff
the first distance is smaller, zero iff the distances are equal (whatever the
ids), positive iff the first distance is larger. -/
theorem compareNode_orders_by_distance (a b : Node) :
    (compareNode a b < 0 ↔ a.1 < b.1) ∧ (compareNode a b = 0 ↔ a.1 = b.1) ∧
    (0 < compareNode a b ↔ b.1 < a.1) := by
  unfold compareNode
  exact ⟨sub_neg, sub_eq_zero, sub_pos⟩

/-- C6 (counterexample): calling the distance functions on vectors of unequal
lengths surfaces no `DimensionMismatch` error: with the first vector shorter
than the second they return an ordinary finite value. -/
theorem distance_no_dimension_check :
    ([1] : Point).length ≠ ([1, 2] : Point).length ∧
    l2_distance [1] [1, 2] = some 0 ∧
    dot_product [1] [1, 2] = some 1 := by
  refine ⟨by simp, ?_, ?_⟩
  · norm_num [l2_distance, l2Fold, Real.sqrt_zero]
  · norm_num [dot_product, dotFold]

/-- C6 (amended): the distance code performs no length check and raises no
error.  `dot_product` and `l2_distance` are `NaN` (modelled `none`) exactly
when the first vector is strictly longer than the second, and an ordinary
value otherwise (extra components of the second vector are silently
ignored); `cosine_distance` is `NaN` exactly when the first vector is
strictly longer or the norm product vanishes (the `0 / 0` denominator path),
is never an infinity, and is an ordinary value otherwise. -/
theorem distance_mismatch_nan (a b : Point) :
    (dot_product a b = none ↔ b.length < a.length) ∧
    (cosine_distance a b = .nan ↔
      (b.length < a.length ∨ norm a * norm b = 0)) ∧
    (cosine_distance a b ≠ .posInf ∧ cosine_distance a b ≠ .negInf) ∧
    (l2_distance a b = none ↔ b.length < a.length) := by
  have hd : dot_product a b = none ↔ b.length < a.length := by
    constructor
    · intro h
      by_contra hlt
      push_neg at hlt
      rw [dot_product_eq_specDot a b hlt] at h
      exact Option.some_ne_none _ h
    · intro h
      rw [dot_product]
      exact dotFold_none_of_lt a b 0 h
  have hl2 : l2_distance a b = none ↔ b.length < a.length := by
    rw [l2_distance, Option.map_eq_none']
    constructor
    · intro h
      by_contra hlt
      push_neg at hlt
      rw [l2Fold_some_of_le a b 0 hlt] at h
      exact Option.some_ne_none _ h
    · exact l2Fold_none_of_lt a b 0
  have hzero : norm a * norm b = 0 → b.length < a.length ∨
      cosine_distance a b = .nan := by
    intro hN
    rcases lt_or_le b.length a.length with hlt | hle
    · exact Or.inl hlt
    · refine Or.inr ?_
      rw [cosine_distance_eq a b hle, specDot_zero_of_norm_zero a b hN, jsDiv,
        if_neg (not_not_intro hN), if_pos rfl]
      rfl
  have hcos : cosine_distance a b = .nan ↔
      (b.length < a.length ∨ norm a * norm b = 0) := by
    constructor
    · intro h
      by_contra hc
      push_neg at hc
      obtain ⟨hlen, hN⟩ := hc
      rw [cosine_distance_eq a b hlen, jsDiv_of_ne _ _ hN] at h
      exact JSNum.noConfusion h
    · rintro (h | hN)
      · exact cosine_distance_nan_of_lt a b h
      · rcases hzero hN with hlt | hnan
        · exact cosine_distance_nan_of_lt a b hlt
        · exact hnan
  have hfin : cosine_distance a b ≠ .posInf ∧ cosine_distance a b ≠ .negInf := by
    rcases lt_or_le b.length a.length with hlt | hle
    · rw [cosine_distance_nan_of_lt a b hlt]
      exact ⟨fun h => JSNum.noConfusion h, fun h => JSNum.noConfusion h⟩
    · by_cases hN : norm a * norm b = 0
      · rw [cosine_distance_eq a b hle, specDot_zero_of_norm_zero a b hN, jsDiv,
          if_neg (not_not_intro hN), if_pos rfl]
        exact ⟨fun h => JSNum.noConfusion h, fun h => JSNum.noConfusion h⟩
      · rw [cosine_distance_eq a b hle, jsDiv_of_ne _ _ hN]
        exact ⟨fun h => JSNum.noConfusion h, fun h => JSNum.noConfusion h⟩
  exact ⟨hd, hcos, hfin, hl2⟩

/-- C9: the dot product is symmetric on equal-length vectors, and so is the
cosine distance when both norms are nonzero. -/
theorem dot_product_cosine_comm (a b : Point) (hlen : a.length = b.length) :
    dot_product a b = dot_product b a ∧
    (norm a ≠ 0 → norm b ≠ 0 → cosine_distance a b = cosine_distance b a) := by
  have hd : dot_product a b = dot_product b a := by
    rw [dot_product_eq_specDot a b hlen.le, dot_product_eq_specDot b a hlen.ge,
      specDot_comm a b hlen]
  exact ⟨hd, fun _ _ => by rw [cosine_distance, cosine_distance, hd, mul_comm]⟩

/-- Witness for C9 at `a = [1, 0]`, `b = [0, 1]`. -/
theorem dot_product_cosine_comm_witness :
    dot_product [1, 0] [0, 1] = dot_product [0, 1] [1, 0] ∧
    cosine_distance [1, 0] [0, 1] = cosine_distance [0, 1] [1, 0] :=
  ⟨(dot_product_cosine_comm [1, 0] [0, 1] rfl).1,
   (dot_product_cosine_comm [1, 0] [0, 1] rfl).2
     (by simp [norm, Real.sqrt_one]) (by simp [norm, Real.sqrt_one])⟩

/-- C4: `new_point q` reads the current datasize `d`, persists `q` under id
`d`, returns `d`, and leaves the datasize at `d + 1`. -/
theorem new_point_assigns_next_id (q : Point) (s : RedisState) :
    (RedisMemory.new_point q s).1 = RedisMemory.get_datasize s ∧
    RedisMemory.get_point (RedisMemory.new_point q s).2 (RedisMemory.get_datasize s)
      = some q ∧
    RedisMemory.get_datasize (RedisMemory.new_point q s).2
      = RedisMemory.get_datasize s + 1 := by
  refine ⟨rfl, ?_, ?_⟩ <;>
    simp [RedisMemory.new_point, RedisMemory.get_point, RedisMemory.get_datasize]

/-- C10: `EizenCompatSDK.setMany` errors exactly when the two arrays have
different lengths (the contract interaction itself assumed to succeed), and
`set key value` is literally `setMany [key] [value]`. -/
theorem setMany_length_check (keys values : List String) (key value : String) :
    ((∃ e, EizenCompatSDK.setMany keys values = .error e)
      ↔ keys.length ≠ values.length) ∧
    EizenCompatSDK.set key value = EizenCompatSDK.setMany [key] [value] := by
  refine ⟨⟨?_, ?_⟩, rfl⟩
  · rintro ⟨e, he⟩ h
    simp [EizenCompatSDK.setMany, h] at he
  · intro h
    exact ⟨.lengthMismatch, by simp [EizenCompatSDK.setMany, h]⟩

/-- C8: constructing an `EizenDbVector` whose effective `m` is at most 1, or
whose effective `ef_construction` or `ef_search` is non-positive, fails with
`InvalidConfig`. -/
theorem construct_invalid_config (options : Option EizenOptions)
    (h : (options.bind (fun o => o.m)).getD 5 ≤ 1 ∨
         (options.bind (fun o => o.efConstruction)).getD 128 ≤ 0 ∨
         (options.bind (fun o => o.efSearch)).getD 20 ≤ 0) :
    EizenDbVector.construct options = .error .InvalidConfig := by
  unfold EizenDbVector.construct HNSW.construct
  rw [if_pos h]

/-- Witness for C8 at `options = { m := 1 }`. -/
theorem construct_invalid_config_witness :
    EizenDbVector.construct (some ⟨some 1, none, none⟩) = .error .InvalidConfig :=
  construct_invalid_config (some ⟨some 1, none, none⟩) (Or.inl (by decide))

theorem new_neighbor_layers_step (idx : ℕ) (t : RedisState) :
    RedisMemory.get_num_layers (RedisMemory.new_neighbor idx t)
      = RedisMemory.get_num_layers t + 1 := by
  simp [RedisMemory.new_neighbor, RedisMemory.get_num_layers,
    RedisMemory.upsert_neighbor]

/-- C3: `new_neighbor idx` writes an empty adjacency record for `idx` at the
current top layer `l = num_layers` and then sets `num_layers` to `l + 1`;
consequently `N` successive calls grow `num_layers` by exactly `N`. -/
theorem new_neighbor_bumps_layers (idx : ℕ) (s : RedisState) :
    (RedisMemory.new_neighbor idx s).neighborRec (RedisMemory.get_num_layers s) idx
      = some emptyNode ∧
    RedisMemory.get_num_layers (RedisMemory.new_neighbor idx s)
      = RedisMemory.get_num_layers s + 1 ∧
    ∀ N : ℕ, RedisMemory.get_num_layers ((RedisMemory.new_neighbor idx)^[N] s)
      = RedisMemory.get_num_layers s + N := by
  refine ⟨?_, new_neighbor_layers_step idx s, ?_⟩
  · simp [RedisMemory.new_neighbor, RedisMemory.upsert_neighbor]
  · intro N
    induction N with
    | zero => rfl
    | succ n ih =>
      rw [Function.iterate_succ_apply', new_neighbor_layers_step, ih, add_assoc]

/-- C5: on equal-length vectors the cosine distance lies in `[0, 2]` whenever
both norms are nonzero, and the L2 distance is a non-negative value. -/
theorem distance_bounds (a b : Point) (hlen : a.length = b.length) :
    (norm a ≠ 0 → norm b ≠ 0 →
      ∃ r, cosine_distance a b = .val r ∧ 0 ≤ r ∧ r ≤ 2) ∧
    ∃ s, l2_distance a b = some s ∧ 0 ≤ s := by
  constructor
  · intro ha hb
    rw [norm_eq_specNorm] at ha hb
    have ha0 : 0 ≤ specNorm a := by rw [specNorm]; exact Real.sqrt_nonneg _
    have hb0 : 0 ≤ specNorm b := by rw [specNorm]; exact Real.sqrt_nonneg _
    have hN : 0 < specNorm a * specNorm b :=
      mul_pos (lt_of_le_of_ne ha0 (Ne.symm ha)) (lt_of_le_of_ne hb0 (Ne.symm hb))
    have habs := abs_specDot_le a b hlen
    rw [abs_le] at habs
    refine ⟨1 - specDot a b / (specNorm a * specNorm b), ?_, ?_, ?_⟩
    · rw [cosine_distance_eq a b hlen.le, norm_eq_specNorm, norm_eq_specNorm,
        jsDiv_of_ne _ _ (mul_ne_zero ha hb)]
      rfl
    · have : specDot a b / (specNorm a * specNorm b) ≤ 1 :=
        (div_le_one hN).mpr habs.2
      linarith
    · have : -1 ≤ specDot a b / (specNorm a * specNorm b) :=
        (le_div_iff₀ hN).mpr (by linarith [habs.1])
      linarith
  · rw [l2_distance, l2Fold_some_of_le a b 0 hlen.le]
    exact ⟨_, rfl, Real.sqrt_nonneg _⟩

/-- Witness for C5 at `a = [1, 0]`, `b = [0, 1]`. -/
theorem distance_bounds_witness :
    (∃ r, cosine_distance [1, 0] [0, 1] = .val r ∧ 0 ≤ r ∧ r ≤ 2) ∧
    ∃ s, l2_distance [1, 0] [0, 1] = some s ∧ 0 ≤ s :=
  ⟨(distance_bounds [1, 0] [0, 1] rfl).1
      (by simp [norm, Real.sqrt_one]) (by simp [norm, Real.sqrt_one]),
   (distance_bounds [1, 0] [0, 1] rfl).2⟩

namespace RedisMemory

theorem msetNeighbors_fields :
    ∀ (nodes : List (ℕ × LayerNode)) (layer : ℕ) (s : RedisState),
      (msetNeighbors layer nodes s).ep = s.ep ∧
      (msetNeighbors layer nodes s).layersKey = s.layersKey ∧
      (msetNeighbors layer nodes s).pointsKey = s.pointsKey ∧
      (msetNeighbors layer nodes s).pointRec = s.pointRec ∧
      (msetNeighbors layer nodes s).metadataRec = s.metadataRec
  | [], _, _ => ⟨rfl, rfl, rfl, rfl, rfl⟩
  | p :: nodes, layer, s =>
    msetNeighbors_fields nodes layer (upsert_neighbor layer p.1 p.2 s)

theorem msetNeighbors_get :
    ∀ (nodes : List (ℕ × LayerNode)) (layer : ℕ) (s : RedisState) (l i : ℕ),
      (msetNeighbors layer nodes s).neighborRec l i =
        if l = layer then ((lastWrite nodes i).map some).getD (s.neighborRec l i)
        else s.neighborRec l i
  | [], layer, s, l, i => by
    by_cases hl : l = layer <;> simp [msetNeighbors, lastWrite, hl]
  | p :: nodes, layer, s, l, i => by
    rw [show msetNeighbors layer (p :: nodes) s
        = msetNeighbors layer nodes (upsert_neighbor layer p.1 p.2 s) from rfl,
      msetNeighbors_get nodes layer _ l i, lastWrite]
    by_cases hl : l = layer
    · cases hlw : lastWrite nodes i with
      | some v => simp [hl, hlw]
      | none =>
        by_cases hip : i = p.1 <;>
          simp [hl, hlw, hip, upsert_neighbor]
    · simp [hl, upsert_neighbor]

/-- C7: `upsert_neighbors` equals its batched `mset` pass alone — the second,
per-entry re-write pass writes the same values to the same keys and leaves
the storage state unchanged. -/
theorem upsert_neighbors_eq_mset (layer : ℕ) (nodes : List (ℕ × LayerNode))
    (s : RedisState) :
    upsert_neighbors layer nodes s = msetNeighbors layer nodes s := by
  show msetNeighbors layer nodes (msetNeighbors layer nodes s)
      = msetNeighbors layer nodes s
  obtain ⟨he, hl', hp, hpr, hm⟩ :=
    msetNeighbors_fields nodes layer (msetNeighbors layer nodes s)
  refine RedisState.ext he hl' hp hpr ?_ hm
  funext l i
  rw [msetNeighbors_get, msetNeighbors_get]
  by_cases hl : l = layer
  · cases hlw : lastWrite nodes i <;> simp [hl, hlw]
  · simp [hl]

end RedisMemory

end Eizen
